import Mathlib

/-!
Shallow embedding of `flow_analyzer.py` (class `LogAnalyzer`): lookup-table
ingestion (`parse_lookup_table`), flow-log classification (`log_parser`) and
report rendering (`write_results`), together with the Python string and
integer primitives those functions rely on.

Python dictionaries (`defaultdict(set)`, `defaultdict(int)`) are modelled as
association lists that preserve insertion order, updating the unique entry of
a key in place and appending new keys at the end — exactly the iteration
order a Python dict exposes.  Python sets of tags are modelled as
duplicate-free lists (membership-checked insertion).  A fatal `sys.exit(1)`
inside `log_parser` is modelled as `Option.none`.
-/

namespace FlowAnalyzer

/-- Splits a character list at every character satisfying `p`, keeping empty
segments, as Python `str.split(sep)` does for a one-character separator. -/
def splitSeg (p : Char → Bool) : List Char → List Char → List (List Char)
  | [], acc => [acc.reverse]
  | c :: cs, acc =>
    if p c then acc.reverse :: splitSeg p cs []
    else splitSeg p cs (c :: acc)

/-- Python `str.strip()` with no argument: drop leading and trailing
whitespace characters (modelled with `Char.isWhitespace`). -/
def stripChars (cs : List Char) : List Char :=
  ((cs.dropWhile Char.isWhitespace).reverse.dropWhile Char.isWhitespace).reverse

/-- Python `line.strip()`. -/
def pyStrip (s : String) : String :=
  String.mk (stripChars s.data)

/-- Python `s.split(",")`: split on every comma, keeping empty fields. -/
def pySplitComma (s : String) : List String :=
  (splitSeg (fun c => c = ',') s.data []).map String.mk

/-- Python `s.split()` with no argument: split on runs of whitespace,
discarding empty segments (so leading/trailing whitespace is ignored). -/
def pySplitWs (s : String) : List String :=
  ((splitSeg Char.isWhitespace s.data []).filter (fun cs => cs ≠ [])).map String.mk

/-- Python `s.lower()` (ASCII case mapping, which covers all data these
claims exercise). -/
def pyLower (s : String) : String :=
  String.mk (s.data.map Char.toLower)

/-- Numeric value of a list of decimal digits. -/
def digitsVal (cs : List Char) : Nat :=
  cs.foldl (fun acc c => acc * 10 + (c.toNat - 48)) 0

/-- Python `int(s)` on a decimal string: strip whitespace, allow one leading
sign, then require a non-empty run of ASCII digits; any other shape raises
`ValueError`, modelled as `none`.  (Underscore digit grouping and non-ASCII
digits are not modelled; no input in this development uses them.) -/
def pyInt? (s : String) : Option Int :=
  match stripChars s.data with
  | '+' :: rest =>
    if rest ≠ [] ∧ rest.all Char.isDigit then some (digitsVal rest) else none
  | '-' :: rest =>
    if rest ≠ [] ∧ rest.all Char.isDigit then some (-(digitsVal rest : Int)) else none
  | cs =>
    if cs ≠ [] ∧ cs.all Char.isDigit then some (digitsVal cs) else none

/-- The module-level `PROTOCOL_MAP` dictionary, in source order. -/
def PROTOCOL_MAP : List (String × String) :=
  [("0", "hopopt"), ("1", "icmp"), ("2", "igmp"), ("3", "ggp"),
   ("4", "ipv4"), ("5", "st"), ("6", "tcp"), ("17", "udp"),
   ("41", "ipv6"), ("43", "ipv6-route"), ("44", "ipv6-frag"),
   ("47", "gre"), ("50", "esp"), ("51", "ah"), ("58", "ipv6-icmp"),
   ("89", "ospf"), ("103", "pim"), ("132", "sctp")]

/-- Python `PROTOCOL_MAP.get(token, default)`. -/
def protocolMapGet (token dflt : String) : String :=
  match PROTOCOL_MAP.find? (fun kv => kv.1 = token) with
  | some kv => kv.2
  | none => dflt

/-- `PROTOCOL_MAP.get(protocol, protocol.lower())` from `log_parser`
(line 115): resolve a raw protocol token to its normalized name. -/
def resolveProtocol (token : String) : String :=
  protocolMapGet token (pyLower token)

/-- `self.port_rule_dictionary`: a dict from `(port, protocol)` to a set of
tags, in key insertion order, each tag set a duplicate-free list. -/
abbrev RuleIndex := List ((Int × String) × List String)

/-- Python `set.add`: insert a tag unless already present. -/
def setAdd (s : List String) (tag : String) : List String :=
  if tag ∈ s then s else s ++ [tag]

/-- `self.port_rule_dictionary[key].add(tag)` (creating the entry first when
the key is new), from `parse_lookup_table` lines 69–72. -/
def addTag : RuleIndex → Int × String → String → RuleIndex
  | [], k, tag => [(k, [tag])]
  | e :: rest, k, tag =>
    if e.1 = k then (e.1, setAdd e.2 tag) :: rest
    else e :: addTag rest k tag

/-- `self.port_rule_dictionary.get(key, set())` from `log_parser` line 119. -/
def getTags : RuleIndex → Int × String → List String
  | [], _ => []
  | e :: rest, k => if e.1 = k then e.2 else getTags rest k

/-- `[field.strip() for field in line.strip().split(',')]` from
`parse_lookup_table` line 58. -/
def lookupRow (line : String) : List String :=
  (pySplitComma (pyStrip line)).map pyStrip

/-- One iteration of the row loop of `parse_lookup_table` (lines 56–76):
comma-split and strip the line, skip it when fewer than 3 fields result or
the port does not parse, otherwise insert the tag at `(port, lowercased
protocol)`. -/
def processLookupLine (idx : RuleIndex) (line : String) : RuleIndex :=
  let row := lookupRow line
  if row.length < 3 then idx
  else
    match pyInt? (row.getD 0 "") with
    | none => idx
    | some port => addTag idx (port, pyLower (row.getD 1 "")) (row.getD 2 "")

/-- `parse_lookup_table` on the list of lines read from the lookup file:
drop the header line when `hasHeaders` (Python `lines[1:]`, which is `[]` on
an empty list), then fold the row loop over the remaining lines. -/
def parse_lookup_table (hasHeaders : Bool) (lines : List String) : RuleIndex :=
  (if hasHeaders then lines.drop 1 else lines).foldl processLookupLine []

/-- `defaultdict(int)` keyed by tag, in insertion order. -/
abbrev TagCounts := List (String × Nat)

/-- `defaultdict(int)` keyed by `(port, protocol)`, in insertion order. -/
abbrev PPCounts := List ((Int × String) × Nat)

/-- `counter[k] += 1` on a `defaultdict(int)`: bump the entry in place, or
append the key with count 1. -/
def bump {α : Type} [DecidableEq α] : List (α × Nat) → α → List (α × Nat)
  | [], k => [(k, 1)]
  | e :: rest, k =>
    if e.1 = k then (e.1, e.2 + 1) :: rest
    else e :: bump rest k

/-- `counter[k]` as observed from outside: 0 when the key is absent. -/
def getCount {α : Type} [DecidableEq α] : List (α × Nat) → α → Nat
  | [], _ => 0
  | e :: rest, k => if e.1 = k then e.2 else getCount rest k

/-- `fields = line.strip().split()` from `log_parser` line 105. -/
def logFields (line : String) : List String :=
  pySplitWs (pyStrip line)

/-- One iteration of the record loop of `log_parser` (lines 103–129):
whitespace-split the line, skip it when fewer than 14 fields result or field
6 does not parse as an integer; otherwise resolve the protocol token at
field 7, bump the port/protocol counter, and bump either every matching tag
or `"Untagged"`. -/
def processLogLine (idx : RuleIndex) (st : TagCounts × PPCounts) (line : String) :
    TagCounts × PPCounts :=
  let fields := logFields line
  if fields.length < 14 then st
  else
    match pyInt? (fields.getD 6 "") with
    | none => st
    | some dstPort =>
      let protocol := resolveProtocol (fields.getD 7 "")
      let ppc := bump st.2 (dstPort, protocol)
      let tags := getTags idx (dstPort, protocol)
      let tc := if tags ≠ [] then tags.foldl bump st.1 else bump st.1 "Untagged"
      (tc, ppc)

/-- `log_parser` on the list of lines of the flow-log stream.  When
`hasHeaders` is true the code calls `next(file)`; on an empty stream that
raises `StopIteration`, which the surrounding `except Exception` handler
turns into `sys.exit(1)` — modelled as `none`.  Otherwise the record loop is
folded over the remaining lines and both counters are returned. -/
def logParser (idx : RuleIndex) (hasHeaders : Bool) (lines : List String) :
    Option (TagCounts × PPCounts) :=
  if hasHeaders then
    match lines with
    | [] => none
    | _ :: rest => some (rest.foldl (processLogLine idx) ([], []))
  else
    some (lines.foldl (processLogLine idx) ([], []))

/-- Python `file.readlines()` followed by per-line `strip` of the trailing
newline: the analyzer always strips each line before use, so lines are
modelled without their terminating newline character. -/
def pyReadLines (s : String) : List String :=
  let segs := splitSeg (fun c => c = '\n') s.data []
  (if segs.getLast? = some [] then segs.dropLast else segs).map String.mk

/-- The inner loop of `write_results` lines 159–165: scan `PROTOCOL_MAP` for
the first entry whose value equals the (already normalized) protocol and
display that value, else the protocol itself.  (As the spec notes, this is
the identity in disguise.) -/
def protocolName (protocol : String) : String :=
  match PROTOCOL_MAP.find? (fun kv => kv.2 = protocol) with
  | some kv => kv.2
  | none => protocol

/-- Python tuple comparison on the `(tag, count)` pairs of
`sorted(tag_count.items())` (line 147): lexicographic, tag name first. -/
def tagLE (a b : String × Nat) : Bool :=
  decide (a.1 < b.1 ∨ (a.1 = b.1 ∧ a.2 ≤ b.2))

/-- The sort key of line 170, `key=lambda x: int(x[0])`: compare triples by
port only, so Python's stable sort preserves encounter order on ties. -/
def portLE (a b : Int × String × Nat) : Bool :=
  decide (a.1 ≤ b.1)

/-- The `sorted_counts` list of lines 157–167, built from the
port/protocol counter in encounter (insertion) order. -/
def portTriples (ppc : PPCounts) : List (Int × String × Nat) :=
  ppc.map (fun e => (e.1.1, protocolName e.1.2, e.2))

/-- `write_results` (lines 140–171) as the list of lines written to the
output file.  Python's `sorted` is a stable sort, as is `List.mergeSort`
with the same comparison, so the two produce identical lists. -/
def write_results (tag_count : TagCounts) (ppc : PPCounts) : List String :=
  ["Tag Counts:", "Tag,Count"]
    ++ (tag_count.mergeSort tagLE).map (fun e => e.1 ++ "," ++ toString e.2)
    ++ [""]
    ++ ["Port/Protocol Combination Counts:", "Port,Protocol,Count"]
    ++ ((portTriples ppc).mergeSort portLE).map
        (fun t => toString t.1 ++ "," ++ t.2.1 ++ "," ++ toString t.2.2)

/-! ### Basic lemmas about the dictionary and set models -/

section CountLemmas

variable {α : Type} [DecidableEq α]

theorem getCount_bump_self (m : List (α × Nat)) (k : α) :
    getCount (bump m k) k = getCount m k + 1 := by
  induction m with
  | nil => simp [bump, getCount]
  | cons e rest ih =>
    by_cases h : e.1 = k
    · simp [bump, getCount, h]
    · simp [bump, getCount, h, ih]

theorem getCount_bump_ne (m : List (α × Nat)) (k k' : α) (h : k' ≠ k) :
    getCount (bump m k) k' = getCount m k' := by
  have h' : ¬ k = k' := fun hh => h hh.symm
  induction m with
  | nil => simp [bump, getCount, h']
  | cons e rest ih =>
    by_cases he : e.1 = k
    · simp [bump, getCount, he, h', h]
    · by_cases he' : e.1 = k' <;> simp [bump, getCount, he, he', h, h', ih]

theorem getCount_foldl_bump_notMem (ts : List α) (m : List (α × Nat)) (k : α)
    (h : k ∉ ts) : getCount (ts.foldl bump m) k = getCount m k := by
  induction ts generalizing m with
  | nil => rfl
  | cons t ts ih =>
    simp only [List.mem_cons, not_or] at h
    simp only [List.foldl_cons]
    rw [ih _ h.2, getCount_bump_ne _ _ _ h.1]

theorem getCount_foldl_bump_mem (ts : List α) (m : List (α × Nat)) (k : α)
    (hn : ts.Nodup) (h : k ∈ ts) :
    getCount (ts.foldl bump m) k = getCount m k + 1 := by
  induction ts generalizing m with
  | nil => cases h
  | cons t ts ih =>
    simp only [List.foldl_cons]
    rcases List.mem_cons.mp h with rfl | hmem
    · rw [getCount_foldl_bump_notMem _ _ _ (List.nodup_cons.mp hn).1,
        getCount_bump_self]
    · rw [ih _ (List.nodup_cons.mp hn).2 hmem,
        getCount_bump_ne _ _ _
          (fun hk => (List.nodup_cons.mp hn).1 (by rw [← hk]; exact hmem))]

theorem bump_counts_pos (m : List (α × Nat)) (k : α)
    (h : ∀ e ∈ m, 1 ≤ e.2) : ∀ e ∈ bump m k, 1 ≤ e.2 := by
  induction m with
  | nil => simp [bump]
  | cons e rest ih =>
    by_cases he : e.1 = k
    · intro x hx
      simp only [bump, he, if_pos rfl] at hx
      rcases List.mem_cons.mp hx with rfl | hx
      · omega
      · exact h x (List.mem_cons_of_mem _ hx)
    · intro x hx
      simp only [bump, he, if_neg he] at hx
      rcases List.mem_cons.mp hx with rfl | hx
      · exact h x (List.mem_cons_self _ _)
      · exact ih (fun y hy => h y (List.mem_cons_of_mem _ hy)) x hx

theorem foldl_bump_counts_pos (ts : List α) (m : List (α × Nat))
    (h : ∀ e ∈ m, 1 ≤ e.2) : ∀ e ∈ ts.foldl bump m, 1 ≤ e.2 := by
  induction ts generalizing m with
  | nil => exact h
  | cons t ts ih => exact ih _ (bump_counts_pos _ _ h)

end CountLemmas

section IndexLemmas

theorem mem_setAdd {s : List String} {tag t : String} :
    t ∈ setAdd s tag ↔ t ∈ s ∨ t = tag := by
  by_cases h : tag ∈ s
  · simp only [setAdd, if_pos h]
    constructor
    · exact Or.inl
    · rintro (hs | rfl)
      · exact hs
      · exact h
  · simp [setAdd, if_neg h]

theorem setAdd_ne_nil (s : List String) (tag : String) : setAdd s tag ≠ [] := by
  by_cases h : tag ∈ s
  · simp only [setAdd, if_pos h]
    rintro rfl
    cases h
  · simp [setAdd, if_neg h]

theorem nodup_setAdd {s : List String} (tag : String) (h : s.Nodup) :
    (setAdd s tag).Nodup := by
  by_cases hm : tag ∈ s
  · simpa [setAdd, if_pos hm] using h
  · simp only [setAdd, if_neg hm]
    rw [List.nodup_append]
    refine ⟨h, List.nodup_singleton _, ?_⟩
    intro a ha hb
    exact hm ((List.mem_singleton.mp hb) ▸ ha)

theorem getTags_addTag_self (idx : RuleIndex) (k : Int × String) (tag : String) :
    getTags (addTag idx k tag) k = setAdd (getTags idx k) tag := by
  induction idx with
  | nil => simp [addTag, getTags, setAdd]
  | cons e rest ih =>
    by_cases h : e.1 = k
    · simp [addTag, getTags, h]
    · simp [addTag, getTags, h, ih]

theorem getTags_addTag_ne (idx : RuleIndex) (k k' : Int × String) (tag : String)
    (h : k' ≠ k) : getTags (addTag idx k tag) k' = getTags idx k' := by
  have h' : ¬ k = k' := fun hh => h hh.symm
  induction idx with
  | nil => simp [addTag, getTags, h']
  | cons e rest ih =>
    by_cases he : e.1 = k
    · simp [addTag, getTags, he, h, h']
    · by_cases he' : e.1 = k' <;> simp [addTag, getTags, he, he', h, h', ih]

theorem addTag_tags_nodup (idx : RuleIndex) (k : Int × String) (tag : String)
    (h : ∀ e ∈ idx, e.2.Nodup) : ∀ e ∈ addTag idx k tag, e.2.Nodup := by
  induction idx with
  | nil =>
    intro x hx
    simp only [addTag] at hx
    rcases List.mem_singleton.mp hx with rfl
    exact List.nodup_singleton tag
  | cons e rest ih =>
    by_cases he : e.1 = k
    · intro x hx
      simp only [addTag, if_pos he] at hx
      rcases List.mem_cons.mp hx with rfl | hx
      · exact nodup_setAdd tag (h e (List.mem_cons_self _ _))
      · exact h x (List.mem_cons_of_mem _ hx)
    · intro x hx
      simp only [addTag, if_neg he] at hx
      rcases List.mem_cons.mp hx with rfl | hx
      · exact h x (List.mem_cons_self _ _)
      · exact ih (fun y hy => h y (List.mem_cons_of_mem _ hy)) x hx

theorem addTag_tags_ne_nil (idx : RuleIndex) (k : Int × String) (tag : String)
    (h : ∀ e ∈ idx, e.2 ≠ []) : ∀ e ∈ addTag idx k tag, e.2 ≠ [] := by
  induction idx with
  | nil =>
    intro x hx
    rcases List.mem_singleton.mp hx with rfl
    simp
  | cons e rest ih =>
    by_cases he : e.1 = k
    · intro x hx
      simp only [addTag, if_pos he] at hx
      rcases List.mem_cons.mp hx with rfl | hx
      · exact setAdd_ne_nil _ _
      · exact h x (List.mem_cons_of_mem _ hx)
    · intro x hx
      simp only [addTag, if_neg he] at hx
      rcases List.mem_cons.mp hx with rfl | hx
      · exact h x (List.mem_cons_self _ _)
      · exact ih (fun y hy => h y (List.mem_cons_of_mem _ hy)) x hx

theorem getTags_nodup (idx : RuleIndex) (k : Int × String)
    (h : ∀ e ∈ idx, e.2.Nodup) : (getTags idx k).Nodup := by
  induction idx with
  | nil => simp [getTags]
  | cons e rest ih =>
    by_cases he : e.1 = k
    · simpa [getTags, he] using h e (List.mem_cons_self _ _)
    · simp only [getTags, if_neg he]
      exact ih (fun y hy => h y (List.mem_cons_of_mem _ hy))

theorem processLookupLine_tags_nodup (idx : RuleIndex) (line : String)
    (h : ∀ e ∈ idx, e.2.Nodup) : ∀ e ∈ processLookupLine idx line, e.2.Nodup := by
  simp only [processLookupLine]
  split
  · exact h
  · split
    · exact h
    · exact addTag_tags_nodup _ _ _ h

theorem processLookupLine_tags_ne_nil (idx : RuleIndex) (line : String)
    (h : ∀ e ∈ idx, e.2 ≠ []) : ∀ e ∈ processLookupLine idx line, e.2 ≠ [] := by
  simp only [processLookupLine]
  split
  · exact h
  · split
    · exact h
    · exact addTag_tags_ne_nil _ _ _ h

theorem foldl_processLookupLine_tags_nodup (lines : List String) (idx : RuleIndex)
    (h : ∀ e ∈ idx, e.2.Nodup) :
    ∀ e ∈ lines.foldl processLookupLine idx, e.2.Nodup := by
  induction lines generalizing idx with
  | nil => exact h
  | cons l ls ih => exact ih _ (processLookupLine_tags_nodup _ _ h)

theorem parse_lookup_table_tags_nodup (hdr : Bool) (lines : List String) :
    ∀ e ∈ parse_lookup_table hdr lines, e.2.Nodup := by
  unfold parse_lookup_table
  exact foldl_processLookupLine_tags_nodup _ _ (by simp)

theorem foldl_processLookupLine_tags_ne_nil (lines : List String) (idx : RuleIndex)
    (h : ∀ e ∈ idx, e.2 ≠ []) :
    ∀ e ∈ lines.foldl processLookupLine idx, e.2 ≠ [] := by
  induction lines generalizing idx with
  | nil => exact h
  | cons l ls ih => exact ih _ (processLookupLine_tags_ne_nil _ _ h)

end IndexLemmas

section StepLemmas

theorem processLookupLine_eq_of_valid (idx : RuleIndex) (line : String) (port : Int)
    (hr : ¬ (lookupRow line).length < 3)
    (hp : pyInt? ((lookupRow line).getD 0 "") = some port) :
    processLookupLine idx line =
      addTag idx (port, pyLower ((lookupRow line).getD 1 "")) ((lookupRow line).getD 2 "") := by
  simp only [processLookupLine, if_neg hr, hp]

theorem processLookupLine_skip (idx : RuleIndex) (line : String)
    (h : (lookupRow line).length < 3 ∨ pyInt? ((lookupRow line).getD 0 "") = none) :
    processLookupLine idx line = idx := by
  rcases h with h | h
  · simp only [processLookupLine, if_pos h]
  · simp only [processLookupLine, h]
    split <;> rfl

theorem processLogLine_eq_of_valid (idx : RuleIndex) (st : TagCounts × PPCounts)
    (line : String) (port : Int)
    (hf : ¬ (logFields line).length < 14)
    (hp : pyInt? ((logFields line).getD 6 "") = some port) :
    processLogLine idx st line =
      ((if getTags idx (port, resolveProtocol ((logFields line).getD 7 "")) ≠ [] then
          (getTags idx (port, resolveProtocol ((logFields line).getD 7 ""))).foldl bump st.1
        else bump st.1 "Untagged"),
       bump st.2 (port, resolveProtocol ((logFields line).getD 7 ""))) := by
  simp only [processLogLine, if_neg hf, hp]

theorem processLogLine_skip (idx : RuleIndex) (st : TagCounts × PPCounts) (line : String)
    (h : (logFields line).length < 14 ∨ pyInt? ((logFields line).getD 6 "") = none) :
    processLogLine idx st line = st := by
  rcases h with h | h
  · simp only [processLogLine, if_pos h]
  · simp only [processLogLine, h]
    split <;> rfl

/-- Folding a step function over a list in which one element is a no-op
gives the same result as folding over the list with that element removed. -/
theorem foldl_skip {α β : Type} (f : β → α → β) (x : α) (hx : ∀ b, f b x = b)
    (pre post : List α) (init : β) :
    (pre ++ x :: post).foldl f init = (pre ++ post).foldl f init := by
  simp [List.foldl_append, hx]

theorem processLogLine_counts_pos (idx : RuleIndex) (st : TagCounts × PPCounts)
    (line : String)
    (h1 : ∀ e ∈ st.1, 1 ≤ e.2) (h2 : ∀ e ∈ st.2, 1 ≤ e.2) :
    (∀ e ∈ (processLogLine idx st line).1, 1 ≤ e.2) ∧
      (∀ e ∈ (processLogLine idx st line).2, 1 ≤ e.2) := by
  simp only [processLogLine]
  split
  · exact ⟨h1, h2⟩
  · split
    · exact ⟨h1, h2⟩
    · refine ⟨?_, bump_counts_pos _ _ h2⟩
      split
      · exact foldl_bump_counts_pos _ _ h1
      · exact bump_counts_pos _ _ h1

theorem foldl_processLogLine_counts_pos (idx : RuleIndex) (lines : List String)
    (st : TagCounts × PPCounts)
    (h1 : ∀ e ∈ st.1, 1 ≤ e.2) (h2 : ∀ e ∈ st.2, 1 ≤ e.2) :
    (∀ e ∈ (lines.foldl (processLogLine idx) st).1, 1 ≤ e.2) ∧
      (∀ e ∈ (lines.foldl (processLogLine idx) st).2, 1 ≤ e.2) := by
  induction lines generalizing st with
  | nil => exact ⟨h1, h2⟩
  | cons l ls ih =>
    have h := processLogLine_counts_pos idx st l h1 h2
    exact ih _ h.1 h.2

end StepLemmas

section SortLemmas

theorem tagLE_trans : ∀ a b c : String × Nat, tagLE a b → tagLE b c → tagLE a c := by
  intro a b c hab hbc
  simp only [tagLE, decide_eq_true_eq] at hab hbc ⊢
  rcases hab with h1 | ⟨h1, h2⟩ <;> rcases hbc with h3 | ⟨h3, h4⟩
  · exact Or.inl (lt_trans h1 h3)
  · exact Or.inl (lt_of_lt_of_le h1 (le_of_eq h3))
  · exact Or.inl (lt_of_le_of_lt (le_of_eq h1) h3)
  · exact Or.inr ⟨h1.trans h3, le_trans h2 h4⟩

theorem tagLE_total : ∀ a b : String × Nat, tagLE a b || tagLE b a := by
  intro a b
  simp only [tagLE, Bool.or_eq_true, decide_eq_true_eq]
  rcases lt_trichotomy a.1 b.1 with h | h | h
  · exact Or.inl (Or.inl h)
  · rcases Nat.le_total a.2 b.2 with h2 | h2
    · exact Or.inl (Or.inr ⟨h, h2⟩)
    · exact Or.inr (Or.inr ⟨h.symm, h2⟩)
  · exact Or.inr (Or.inl h)

theorem portLE_trans : ∀ a b c : Int × String × Nat, portLE a b → portLE b c → portLE a c := by
  intro a b c hab hbc
  simp only [portLE, decide_eq_true_eq] at hab hbc ⊢
  omega

theorem portLE_total : ∀ a b : Int × String × Nat, portLE a b || portLE b a := by
  intro a b
  simp only [portLE, Bool.or_eq_true, decide_eq_true_eq]
  omega

end SortLemmas

section ClassifierLemmas

/-- Full effect of one valid record on both counters, for an index whose tag
sets are duplicate-free (as every index built by `parse_lookup_table` is). -/
theorem processLogLine_spec (idx : RuleIndex) (st : TagCounts × PPCounts)
    (line : String) (port : Int)
    (hwf : ∀ e ∈ idx, e.2.Nodup)
    (hf : ¬ (logFields line).length < 14)
    (hp : pyInt? ((logFields line).getD 6 "") = some port) :
    getCount (processLogLine idx st line).2
        (port, resolveProtocol ((logFields line).getD 7 "")) =
      getCount st.2 (port, resolveProtocol ((logFields line).getD 7 "")) + 1 ∧
    (∀ k, k ≠ (port, resolveProtocol ((logFields line).getD 7 "")) →
      getCount (processLogLine idx st line).2 k = getCount st.2 k) ∧
    (getTags idx (port, resolveProtocol ((logFields line).getD 7 "")) ≠ [] →
      ∀ tag ∈ getTags idx (port, resolveProtocol ((logFields line).getD 7 "")),
        getCount (processLogLine idx st line).1 tag = getCount st.1 tag + 1) ∧
    (∃ t, getCount (processLogLine idx st line).1 t = getCount st.1 t + 1) := by
  rw [processLogLine_eq_of_valid idx st line port hf hp]
  refine ⟨getCount_bump_self _ _, fun k hk => getCount_bump_ne _ _ _ hk, ?_, ?_⟩
  · intro hne tag htag
    simp only [if_pos hne]
    exact getCount_foldl_bump_mem _ _ _ (getTags_nodup idx _ hwf) htag
  · by_cases hne : getTags idx (port, resolveProtocol ((logFields line).getD 7 "")) ≠ []
    · obtain ⟨tag, htag⟩ := List.exists_mem_of_ne_nil _ hne
      refine ⟨tag, ?_⟩
      simp only [if_pos hne]
      exact getCount_foldl_bump_mem _ _ _ (getTags_nodup idx _ hwf) htag
    · refine ⟨"Untagged", ?_⟩
      simp only [if_neg hne]
      exact getCount_bump_self _ _

/-- Closed form of `log_parser`: fatal (`none`) exactly on an empty stream
with the header flag set, otherwise a fold of the record loop over the lines
after the discarded header. -/
theorem logParser_characterization (idx : RuleIndex) (hdr : Bool) (lines : List String) :
    logParser idx hdr lines =
      if hdr = true ∧ lines = [] then none
      else some ((if hdr then lines.drop 1 else lines).foldl (processLogLine idx) ([], [])) := by
  cases hdr <;> cases lines <;> simp [logParser]

end ClassifierLemmas

/-! ### Claim theorems -/

/-- C1: For every flow-log record with at least 14 whitespace-delimited
fields and an integer-parsable field 6, classification against an index
built by `parse_lookup_table` increments the port/protocol count at
`(port, resolved-protocol)` by exactly 1 (every other pair unchanged),
increments the tag count by 1 for every tag in the matching rule set when
that set is non-empty, and in all cases makes at least one tag-count
increment. -/
theorem C1_record_increments (hdr : Bool) (lookupLines : List String)
    (st : TagCounts × PPCounts) (line : String) (port : Int)
    (hf : ¬ (logFields line).length < 14)
    (hp : pyInt? ((logFields line).getD 6 "") = some port) :
    getCount (processLogLine (parse_lookup_table hdr lookupLines) st line).2
        (port, resolveProtocol ((logFields line).getD 7 "")) =
      getCount st.2 (port, resolveProtocol ((logFields line).getD 7 "")) + 1 ∧
    (∀ k, k ≠ (port, resolveProtocol ((logFields line).getD 7 "")) →
      getCount (processLogLine (parse_lookup_table hdr lookupLines) st line).2 k =
        getCount st.2 k) ∧
    (getTags (parse_lookup_table hdr lookupLines)
        (port, resolveProtocol ((logFields line).getD 7 "")) ≠ [] →
      ∀ tag ∈ getTags (parse_lookup_table hdr lookupLines)
          (port, resolveProtocol ((logFields line).getD 7 "")),
        getCount (processLogLine (parse_lookup_table hdr lookupLines) st line).1 tag =
          getCount st.1 tag + 1) ∧
    (∃ t, getCount (processLogLine (parse_lookup_table hdr lookupLines) st line).1 t =
      getCount st.1 t + 1) :=
  processLogLine_spec (parse_lookup_table hdr lookupLines) st line port
    (parse_lookup_table_tags_nodup hdr lookupLines) hf hp

/-- Witness for C1 at a concrete record and a doubly-tagged rule. -/
theorem C1_record_increments_witness :
    getCount (processLogLine (parse_lookup_table false ["80,tcp,web", "80,tcp,http"])
        ([], []) "a b c d e f 80 6 i j k l m n").2
      (80, resolveProtocol ((logFields "a b c d e f 80 6 i j k l m n").getD 7 "")) =
      getCount (([], []) : TagCounts × PPCounts).2
        (80, resolveProtocol ((logFields "a b c d e f 80 6 i j k l m n").getD 7 "")) + 1 :=
  (C1_record_increments false ["80,tcp,web", "80,tcp,http"] ([], [])
    "a b c d e f 80 6 i j k l m n" 80 (by decide) (by decide)).1

/-- C2: A record whose `(port, resolved-protocol)` has no matching rule
(key absent, or present with an empty tag set — both are `getTags … = []`)
increments the `"Untagged"` tag count by exactly 1 (every other tag
unchanged) and still increments the port/protocol count for that pair. -/
theorem C2_untagged_increments (idx : RuleIndex) (st : TagCounts × PPCounts)
    (line : String) (port : Int)
    (hf : ¬ (logFields line).length < 14)
    (hp : pyInt? ((logFields line).getD 6 "") = some port)
    (hEmpty : getTags idx (port, resolveProtocol ((logFields line).getD 7 "")) = []) :
    getCount (processLogLine idx st line).1 "Untagged" =
      getCount st.1 "Untagged" + 1 ∧
    (∀ t, t ≠ "Untagged" → getCount (processLogLine idx st line).1 t = getCount st.1 t) ∧
    getCount (processLogLine idx st line).2
        (port, resolveProtocol ((logFields line).getD 7 "")) =
      getCount st.2 (port, resolveProtocol ((logFields line).getD 7 "")) + 1 := by
  rw [processLogLine_eq_of_valid idx st line port hf hp]
  have hcond : ¬ (getTags idx (port, resolveProtocol ((logFields line).getD 7 "")) ≠ []) :=
    fun h => h hEmpty
  refine ⟨?_, ?_, getCount_bump_self _ _⟩
  · simp only [if_neg hcond]
    exact getCount_bump_self _ _
  · intro t ht
    simp only [if_neg hcond]
    exact getCount_bump_ne _ _ _ ht

/-- Witness for C2 at a record hitting port 8080/udp with no rule for it. -/
theorem C2_untagged_increments_witness :
    getCount (processLogLine [((80, "tcp"), ["web"])] ([], [])
        "a b c d e f 8080 17 i j k l m n").1 "Untagged" =
      getCount (([], []) : TagCounts × PPCounts).1 "Untagged" + 1 :=
  (C2_untagged_increments [((80, "tcp"), ["web"])] ([], [])
    "a b c d e f 8080 17 i j k l m n" 8080 (by decide) (by decide) (by decide)).1

/-- C3: A valid lookup row accumulates its tag into the set at its RuleKey
by union — the new set has exactly the old members plus the new tag, stays
duplicate-free, and no other key changes; in particular rows `80,tcp,web`
and `80,tcp,http` yield the tag set `{web, http}` at `(80, tcp)`. -/
theorem C3_tagset_union (idx : RuleIndex) (line : String) (port : Int)
    (hr : ¬ (lookupRow line).length < 3)
    (hp : pyInt? ((lookupRow line).getD 0 "") = some port) :
    (∀ t, t ∈ getTags (processLookupLine idx line)
          (port, pyLower ((lookupRow line).getD 1 "")) ↔
        t ∈ getTags idx (port, pyLower ((lookupRow line).getD 1 "")) ∨
          t = (lookupRow line).getD 2 "") ∧
    ((getTags idx (port, pyLower ((lookupRow line).getD 1 ""))).Nodup →
      (getTags (processLookupLine idx line)
          (port, pyLower ((lookupRow line).getD 1 ""))).Nodup) ∧
    (∀ k, k ≠ (port, pyLower ((lookupRow line).getD 1 "")) →
      getTags (processLookupLine idx line) k = getTags idx k) ∧
    getTags (parse_lookup_table false ["80,tcp,web", "80,tcp,http"]) (80, "tcp") =
      ["web", "http"] := by
  rw [processLookupLine_eq_of_valid idx line port hr hp]
  refine ⟨?_, ?_, ?_, by decide⟩
  · intro t
    rw [getTags_addTag_self]
    exact mem_setAdd
  · intro h
    rw [getTags_addTag_self]
    exact nodup_setAdd _ h
  · intro k hk
    exact getTags_addTag_ne idx _ k _ hk

/-- Witness for C3 at the row `80,tcp,web` over the empty index. -/
theorem C3_tagset_union_witness :
    "web" ∈ getTags (processLookupLine [] "80,tcp,web")
        (80, pyLower ((lookupRow "80,tcp,web").getD 1 "")) ↔
      "web" ∈ getTags [] (80, pyLower ((lookupRow "80,tcp,web").getD 1 "")) ∨
        "web" = (lookupRow "80,tcp,web").getD 2 "" :=
  (C3_tagset_union [] "80,tcp,web" 80 (by decide) (by decide)).1 "web"

/-- C4: The rule index is invariant under the case of the protocol field:
two lines whose stripped comma-split rows agree on port and tag and whose
protocol fields agree after lowercasing are processed identically, and the
spec's concrete mixed-case table with a header produces exactly the keys
`(80,tcp) ↦ {web}`, `(443,tcp) ↦ {ssl}`, `(22,tcp) ↦ {ssh}`. -/
theorem C4_case_insensitive (idx : RuleIndex) (line1 line2 : String)
    (hlen : (lookupRow line1).length = (lookupRow line2).length)
    (h0 : (lookupRow line1).getD 0 "" = (lookupRow line2).getD 0 "")
    (hproto : pyLower ((lookupRow line1).getD 1 "") =
      pyLower ((lookupRow line2).getD 1 ""))
    (htag : (lookupRow line1).getD 2 "" = (lookupRow line2).getD 2 "") :
    processLookupLine idx line1 = processLookupLine idx line2 ∧
    parse_lookup_table true
        (pyReadLines "dstport,protocol,tag\n80,TCP,web\n443,tcp,ssl\n22,TcP,ssh") =
      [((80, "tcp"), ["web"]), ((443, "tcp"), ["ssl"]), ((22, "tcp"), ["ssh"])] := by
  refine ⟨?_, by decide⟩
  by_cases h : (lookupRow line1).length < 3
  · rw [processLookupLine_skip idx line1 (Or.inl h),
      processLookupLine_skip idx line2 (Or.inl (hlen ▸ h))]
  · have h2 : ¬ (lookupRow line2).length < 3 := hlen ▸ h
    rcases hcase : pyInt? ((lookupRow line1).getD 0 "") with _ | port
    · rw [processLookupLine_skip idx line1 (Or.inr hcase),
        processLookupLine_skip idx line2 (Or.inr (h0 ▸ hcase))]
    · rw [processLookupLine_eq_of_valid idx line1 port h hcase,
        processLookupLine_eq_of_valid idx line2 port h2 (h0 ▸ hcase),
        hproto, htag]

/-- Witness for C4 at the case-variant rows `80,TCP,web` and `80,tcp,web`. -/
theorem C4_case_insensitive_witness :
    processLookupLine [] "80,TCP,web" = processLookupLine [] "80,tcp,web" :=
  (C4_case_insensitive [] "80,TCP,web" "80,tcp,web"
    (by decide) (by decide) (by decide) (by decide)).1

/-- C5: `resolveProtocol` is total and pure: a token found among the keys of
`PROTOCOL_MAP` resolves to the registered lowercase name, any other token —
unrecognized numerics included — passes through lowercased with no error
signalled, and the table covers the 18 required IANA numbers
("6" ↦ "tcp", "17" ↦ "udp", …). -/
theorem C5_resolveProtocol_total :
    (∀ token kv, PROTOCOL_MAP.find? (fun e => e.1 = token) = some kv →
      resolveProtocol token = kv.2) ∧
    (∀ token, PROTOCOL_MAP.find? (fun e => e.1 = token) = none →
      resolveProtocol token = pyLower token) ∧
    resolveProtocol "0" = "hopopt" ∧ resolveProtocol "1" = "icmp" ∧
    resolveProtocol "2" = "igmp" ∧ resolveProtocol "3" = "ggp" ∧
    resolveProtocol "4" = "ipv4" ∧ resolveProtocol "5" = "st" ∧
    resolveProtocol "6" = "tcp" ∧ resolveProtocol "17" = "udp" ∧
    resolveProtocol "41" = "ipv6" ∧ resolveProtocol "43" = "ipv6-route" ∧
    resolveProtocol "44" = "ipv6-frag" ∧ resolveProtocol "47" = "gre" ∧
    resolveProtocol "50" = "esp" ∧ resolveProtocol "51" = "ah" ∧
    resolveProtocol "58" = "ipv6-icmp" ∧ resolveProtocol "89" = "ospf" ∧
    resolveProtocol "103" = "pim" ∧ resolveProtocol "132" = "sctp" := by
  refine ⟨?_, ?_, by decide⟩
  · intro token kv h
    simp only [resolveProtocol, protocolMapGet, h]
  · intro token h
    simp only [resolveProtocol, protocolMapGet, h]

/-- Witness for C5: the unrecognized numeric token "999" passes through
lowercased unchanged. -/
theorem C5_resolveProtocol_total_witness :
    resolveProtocol "999" = pyLower "999" :=
  C5_resolveProtocol_total.2.1 "999" (by decide)

/-- C6 counterexample: Python `int` accepts a signed value, so the row
`-80,tcp,web` is NOT skipped — it creates the RuleIndex entry
`(-80, tcp) ↦ {web}` with a negative port, refuting both "skips … every row
whose first field does not parse as a non-negative integer port" and "every
RuleKey in the resulting RuleIndex has a non-negative port". -/
theorem C6_negative_port_counterexample :
    parse_lookup_table false ["-80,tcp,web"] = [((-80, "tcp"), ["web"])] ∧
      (-80 : Int) < 0 :=
  ⟨by decide, by decide⟩

/-- C6 amended: `parse_lookup_table` skips every row whose first field does
not parse as an integer (a leading sign is permitted, so negative ports are
accepted); the row `-80,tcp,web` therefore contributes the entry
`(-80, tcp) ↦ {web}`. -/
theorem C6_amended_integer_port (idx : RuleIndex) (line : String)
    (h : pyInt? ((lookupRow line).getD 0 "") = none) :
    processLookupLine idx line = idx ∧
    getTags (parse_lookup_table false ["-80,tcp,web"]) (-80, "tcp") = ["web"] :=
  ⟨processLookupLine_skip idx line (Or.inr h), by decide⟩

/-- Witness for the amended C6 at the non-integer port field "abc". -/
theorem C6_amended_integer_port_witness :
    processLookupLine [] "abc,tcp,web" = [] ∧
    getTags (parse_lookup_table false ["-80,tcp,web"]) (-80, "tcp") = ["web"] :=
  C6_amended_integer_port [] "abc,tcp,web" (by decide)

/-- C7 counterexample: on an empty but perfectly readable stream with
`hasHeaders` set, `next(file)` raises `StopIteration`, which the
`except Exception` handler turns into `sys.exit(1)` — `log_parser` is fatal
(`none`), not a normal completion with empty mappings. -/
theorem C7_empty_stream_counterexample :
    logParser [] true [] = none := rfl

/-- C7 amended: `log_parser` terminates fatally on an empty stream when
`hasHeaders` is true (there is no first line to discard and the attempt
aborts the run); on every other stream it completes normally, returning the
fold of the record loop over the lines after the discarded header (empty
mappings when no valid records follow). -/
theorem C7_amended_totality (idx : RuleIndex) (hdr : Bool) (lines : List String) :
    logParser idx hdr lines =
      if hdr = true ∧ lines = [] then none
      else some ((if hdr then lines.drop 1 else lines).foldl
        (processLogLine idx) ([], [])) :=
  logParser_characterization idx hdr lines

/-- C8: `write_results` output is deterministic and sorted: the tag section
lists the tag/count pairs sorted ascending by tag name (one row per tag,
formatted `tag,count`), and the port/protocol section lists the triples
sorted ascending by numeric port with ties kept in encounter order
(formatted `port,protocol,count`). -/
theorem C8_render_sorted (tc : TagCounts) (ppc : PPCounts) :
    write_results tc ppc =
      ["Tag Counts:", "Tag,Count"]
        ++ (tc.mergeSort tagLE).map (fun e => e.1 ++ "," ++ toString e.2)
        ++ [""]
        ++ ["Port/Protocol Combination Counts:", "Port,Protocol,Count"]
        ++ ((portTriples ppc).mergeSort portLE).map
            (fun t => toString t.1 ++ "," ++ t.2.1 ++ "," ++ toString t.2.2) ∧
    List.Perm (tc.mergeSort tagLE) tc ∧
    (tc.mergeSort tagLE).Pairwise (fun a b => a.1 ≤ b.1) ∧
    List.Perm ((portTriples ppc).mergeSort portLE) (portTriples ppc) ∧
    ((portTriples ppc).mergeSort portLE).Pairwise (fun a b => a.1 ≤ b.1) ∧
    (∀ a b : Int × String × Nat, List.Sublist [a, b] (portTriples ppc) → a.1 = b.1 →
      List.Sublist [a, b] ((portTriples ppc).mergeSort portLE)) := by
  refine ⟨rfl, List.mergeSort_perm tc tagLE, ?_,
    List.mergeSort_perm (portTriples ppc) portLE, ?_, ?_⟩
  · refine (List.sorted_mergeSort tagLE_trans tagLE_total tc).imp ?_
    intro a b hab
    simp only [tagLE, decide_eq_true_eq] at hab
    rcases hab with h | ⟨h, _⟩
    · exact le_of_lt h
    · exact le_of_eq h
  · refine (List.sorted_mergeSort portLE_trans portLE_total (portTriples ppc)).imp ?_
    intro a b hab
    simpa only [portLE, decide_eq_true_eq] using hab
  · intro a b hsub heq
    refine List.sublist_mergeSort portLE_trans portLE_total ?_ hsub
    simp [List.pairwise_cons, portLE, heq]

/-- Witness for C8: two pairs tied on port 443 keep their encounter order
through the sort. -/
theorem C8_render_sorted_witness :
    List.Sublist [((443 : Int), ("tcp", (2 : Nat))), (443, ("udp", 1))]
      ((portTriples [((443, "tcp"), 2), ((443, "udp"), 1)]).mergeSort portLE) :=
  (C8_render_sorted [("web", 2)] [((443, "tcp"), 2), ((443, "udp"), 1)]).2.2.2.2.2
    (443, "tcp", 2) (443, "udp", 1) (List.Sublist.refl _) rfl

/-- C9: Skipping a malformed line is effect-free: a lookup row with fewer
than 3 fields or a non-parsable port leaves the index unchanged, a log
record with fewer than 14 fields or a non-parsable field 6 leaves both
counters unchanged, and in both folds the result over any surrounding lines
equals the result with the malformed line deleted. -/
theorem C9_skip_frame (idx : RuleIndex) (st : TagCounts × PPCounts)
    (badRow badRec : String)
    (hRow : (lookupRow badRow).length < 3 ∨
      pyInt? ((lookupRow badRow).getD 0 "") = none)
    (hRec : (logFields badRec).length < 14 ∨
      pyInt? ((logFields badRec).getD 6 "") = none) :
    processLookupLine idx badRow = idx ∧
    processLogLine idx st badRec = st ∧
    (∀ pre post init, (pre ++ badRow :: post).foldl processLookupLine init =
      (pre ++ post).foldl processLookupLine init) ∧
    (∀ pre post init, (pre ++ badRec :: post).foldl (processLogLine idx) init =
      (pre ++ post).foldl (processLogLine idx) init) := by
  refine ⟨processLookupLine_skip idx badRow hRow,
    processLogLine_skip idx st badRec hRec, ?_, ?_⟩
  · intro pre post init
    exact foldl_skip _ _ (fun b => processLookupLine_skip b badRow hRow) pre post init
  · intro pre post init
    exact foldl_skip _ _ (fun b => processLogLine_skip idx b badRec hRec) pre post init

/-- Witness for C9 at a two-field lookup row and a three-field log record. -/
theorem C9_skip_frame_witness :
    processLookupLine [((443, "tcp"), ["ssl"])] "80,tcp" = [((443, "tcp"), ["ssl"])] :=
  (C9_skip_frame [((443, "tcp"), ["ssl"])] ([], []) "80,tcp" "x y z"
    (by decide) (by decide)).1

/-- C10: No degenerate entries: every key of an index built by
`parse_lookup_table` carries a non-empty tag set, and every count in the
mappings returned by a successful `log_parser` run is at least 1. -/
theorem C10_no_degenerate_entries (hdr : Bool) (lookupLines : List String)
    (idx : RuleIndex) (logHdr : Bool) (logLines : List String)
    (res : TagCounts × PPCounts)
    (hres : logParser idx logHdr logLines = some res) :
    (∀ e ∈ parse_lookup_table hdr lookupLines, e.2 ≠ []) ∧
    (∀ e ∈ res.1, 1 ≤ e.2) ∧ (∀ e ∈ res.2, 1 ≤ e.2) := by
  have h := logParser_characterization idx logHdr logLines
  rw [hres] at h
  refine ⟨?_, ?_, ?_⟩
  · unfold parse_lookup_table
    exact foldl_processLookupLine_tags_ne_nil _ _ (by simp)
  all_goals
    by_cases hc : logHdr = true ∧ logLines = []
    · rw [if_pos hc] at h; cases h
    · rw [if_neg hc] at h
      have hres' : res = (if logHdr then logLines.drop 1 else logLines).foldl
          (processLogLine idx) ([], []) := Option.some_inj.mp h
      subst hres'
      first
      | exact (foldl_processLogLine_counts_pos idx _ ([], []) (by simp) (by simp)).1
      | exact (foldl_processLogLine_counts_pos idx _ ([], []) (by simp) (by simp)).2

/-- Witness for C10 on a successful one-record run: the count recorded for
the `"Untagged"` entry is at least 1. -/
theorem C10_no_degenerate_entries_witness :
    1 ≤ (("Untagged", 1) : String × Nat).2 :=
  (C10_no_degenerate_entries false ["80,tcp,web"] [] false
      ["a b c d e f 80 6 i j k l m n"] ([("Untagged", 1)], [((80, "tcp"), 1)])
      (by decide)).2.1 ("Untagged", 1) (by decide)

end FlowAnalyzer
